import Mathlib

/-!
Verification of the preview cut-point planning, validation, extraction-ordering
and playlist-trimming engine of the File_Prepare_HF repository
(`Preview_Tool.py`), as a shallow embedding over exact rationals.

Modelling conventions:
* Python floats are modelled as exact rationals; Python `round` (banker's
  rounding, half to even) is `rndHalfEven` / `roundTo`.
* Calls to the external media tool (`run_command`) are modelled by oracle
  parameters (success flags, probe outcomes).
* `random.uniform` draws and `random.sample` choices are passed in as explicit
  parameters so that every theorem quantifies over all possible draws.
-/

namespace PreviewTool

/-- Round half to even on an exact rational, mirroring Python `round(x)`. -/
def rndHalfEven (q : ℚ) : ℤ :=
  if q - ⌊q⌋ < 1/2 then ⌊q⌋
  else if 1/2 < q - ⌊q⌋ then ⌊q⌋ + 1
  else if ⌊q⌋ % 2 = 0 then ⌊q⌋ else ⌊q⌋ + 1

/-- Python `round(x, k)`: round to `k` decimal places, half to even. -/
def roundTo (k : ℕ) (q : ℚ) : ℚ := (rndHalfEven (q * 10 ^ k) : ℚ) / 10 ^ k

theorem rndHalfEven_le (q : ℚ) : (rndHalfEven q : ℚ) ≤ q + 1/2 := by
  unfold rndHalfEven
  have h := Int.floor_le q
  split_ifs <;> push_cast <;> linarith

theorem le_rndHalfEven (q : ℚ) : q - 1/2 ≤ (rndHalfEven q : ℚ) := by
  unfold rndHalfEven
  have h := Int.lt_floor_add_one q
  split_ifs <;> push_cast <;> linarith

theorem floor_le_rndHalfEven (q : ℚ) : ⌊q⌋ ≤ rndHalfEven q := by
  unfold rndHalfEven
  split_ifs <;> omega

theorem rndHalfEven_le_floor_add_one (q : ℚ) : rndHalfEven q ≤ ⌊q⌋ + 1 := by
  unfold rndHalfEven
  split_ifs <;> omega

theorem rndHalfEven_mono {a b : ℚ} (h : a ≤ b) : rndHalfEven a ≤ rndHalfEven b := by
  rcases lt_or_eq_of_le (Int.floor_le_floor h) with hf | hf
  · calc rndHalfEven a ≤ ⌊a⌋ + 1 := rndHalfEven_le_floor_add_one a
      _ ≤ ⌊b⌋ := by omega
      _ ≤ rndHalfEven b := floor_le_rndHalfEven b
  · unfold rndHalfEven
    rw [hf]
    split_ifs <;> first | omega | linarith

/-!
`generate_cut_points` (Preview_Tool.py, lines 413-514), candidate generation.
One loop iteration draws `start_point = round(uniform(0.02,0.08), 3)`,
`end_point = round(uniform(0.975,0.99), 3)` (when `last_cut_point == 0`),
and for each interior slot `i ∈ range(1, num_cuts)` a jitter in `[-0.02,0.02]`.
The draws are passed in as parameters `start_point`, `end_point`, `jit`.
-/

/-- Interior candidate of `generate_cut_points`:
`next_point = round(start_point + step * i + random.uniform(-0.02, 0.02), 3)`. -/
def interiorPoint (start_point step : ℚ) (jit : ℕ → ℚ) (i : ℕ) : ℚ :=
  roundTo 3 (start_point + step * i + jit i)

/-- The set `cut_points` built by one iteration of `generate_cut_points`:
starts as `{start_point, end_point}`; an interior point is added only when
`start_point < next_point < end_point` and it is not blacklisted. -/
def candidateSet (num_of_segments : ℕ) (start_point end_point : ℚ) (jit : ℕ → ℚ)
    (blacklisted_cut_points : List ℚ) : Finset ℚ :=
  let num_cuts := num_of_segments - 1
  let step := (end_point - start_point) / (num_cuts : ℚ)
  {start_point, end_point} ∪
    ((Finset.Ico 1 num_cuts).image (interiorPoint start_point step jit)).filter
      (fun p => start_point < p ∧ p < end_point ∧ p ∉ blacklisted_cut_points)

/-- `sorted_points = sorted(cut_points)`. -/
def sortedPoints (n : ℕ) (sp ep : ℚ) (jit : ℕ → ℚ) (bl : List ℚ) : List ℚ :=
  (candidateSet n sp ep jit bl).sort (· ≤ ·)

/-- `cut_points_seconds = [round(duration * pct) for pct in sorted_points]`. -/
def cutPointsSeconds (n : ℕ) (duration sp ep : ℚ) (jit : ℕ → ℚ) (bl : List ℚ) : List ℤ :=
  (sortedPoints n sp ep jit bl).map (fun pct => rndHalfEven (duration * pct))

theorem mem_candidateSet_bounds {n : ℕ} {sp ep p : ℚ} {jit : ℕ → ℚ} {bl : List ℚ}
    (hle : sp ≤ ep) (hp : p ∈ candidateSet n sp ep jit bl) : sp ≤ p ∧ p ≤ ep := by
  unfold candidateSet at hp
  simp only [Finset.mem_union, Finset.mem_insert, Finset.mem_singleton,
    Finset.mem_filter] at hp
  rcases hp with (rfl | rfl) | ⟨-, h1, h2, -⟩
  · exact ⟨le_refl _, hle⟩
  · exact ⟨hle, le_refl _⟩
  · exact ⟨le_of_lt h1, le_of_lt h2⟩

theorem mem_candidateSet_blacklist {n : ℕ} {sp ep p : ℚ} {jit : ℕ → ℚ} {bl : List ℚ}
    (hp : p ∈ candidateSet n sp ep jit bl) (hsp : p ≠ sp) (hep : p ≠ ep) : p ∉ bl := by
  unfold candidateSet at hp
  simp only [Finset.mem_union, Finset.mem_insert, Finset.mem_singleton,
    Finset.mem_filter] at hp
  rcases hp with (rfl | rfl) | ⟨-, -, -, h⟩
  · exact absurd rfl hsp
  · exact absurd rfl hep
  · exact h

/-- Jitters used by the C1 counterexample; all lie inside `[-0.02, 0.02]`,
so they are possible values of `random.uniform(-0.02, 0.02)`. -/
def c1jit : ℕ → ℚ
  | 1 => 1/50
  | 2 => -3687/200000
  | _ => 0

set_option maxRecDepth 10000 in
/-- C1 counterexample. With `n = 24` segments (valid for grid 3), duration 160s
(above the 150s floor), draws `start_point = 0.05`, `end_point = 0.98`,
jitters in range and blacklist `[0.05]`, the candidate set is accepted
(24 distinct fractions), yet the returned second-timestamps are NOT strictly
increasing and NOT pairwise distinct (two fractions 0.110 and 0.112 both round
to 18s), and the fraction 0.05 equals a blacklisted value (the endpoint draws
are never checked against the blacklist). -/
theorem C1_counterexample :
    (candidateSet 24 (1/20) (49/50) c1jit [1/20]).card = 24
    ∧ ¬ List.Sorted (· < ·) (cutPointsSeconds 24 160 (1/20) (49/50) c1jit [1/20])
    ∧ ¬ (cutPointsSeconds 24 160 (1/20) (49/50) c1jit [1/20]).Nodup
    ∧ (1/20 : ℚ) ∈ sortedPoints 24 (1/20) (49/50) c1jit [1/20]
    ∧ (1/20 : ℚ) ∈ [(1/20 : ℚ)] := by
  with_unfolding_all decide

/-- C1 amended. For any accepted candidate set (duration above the 150s floor,
draws within their documented uniform ranges), `generate_cut_points` produces
exactly `n` timestamps; the underlying fractions are strictly increasing and
pairwise distinct and the interior fractions avoid the blacklist (the two
endpoint draws are not blacklist-checked); the integer-second timestamps are
nondecreasing (rounding can merge adjacent fractions) and lie strictly inside
`(0, duration)`. -/
theorem C1_amended (n : ℕ) (duration sp ep : ℚ) (jit : ℕ → ℚ) (bl : List ℚ)
    (hdur : 150 < duration)
    (hsp1 : 1/50 ≤ sp) (hsp2 : sp ≤ 2/25)
    (hep1 : 39/40 ≤ ep) (hep2 : ep ≤ 99/100)
    (hacc : (candidateSet n sp ep jit bl).card = n) :
    (cutPointsSeconds n duration sp ep jit bl).length = n
    ∧ List.Sorted (· < ·) (sortedPoints n sp ep jit bl)
    ∧ List.Sorted (· ≤ ·) (cutPointsSeconds n duration sp ep jit bl)
    ∧ (∀ t ∈ cutPointsSeconds n duration sp ep jit bl, 0 < t ∧ (t : ℚ) < duration)
    ∧ (∀ p ∈ sortedPoints n sp ep jit bl, p ≠ sp → p ≠ ep → p ∉ bl) := by
  have hspep : sp ≤ ep := le_trans hsp2 (le_trans (by norm_num) hep1)
  refine ⟨?_, ?_, ?_, ?_, ?_⟩
  · unfold cutPointsSeconds sortedPoints
    rw [List.length_map, Finset.length_sort, hacc]
  · exact Finset.sort_sorted_lt _
  · unfold cutPointsSeconds
    rw [List.Sorted, List.pairwise_map]
    have hs := Finset.sort_sorted_lt (candidateSet n sp ep jit bl)
    unfold sortedPoints
    exact hs.imp (fun h =>
      rndHalfEven_mono (mul_le_mul_of_nonneg_left (le_of_lt h) (by linarith)))
  · intro t ht
    unfold cutPointsSeconds at ht
    rcases List.mem_map.mp ht with ⟨p, hp, rfl⟩
    unfold sortedPoints at hp
    rw [Finset.mem_sort] at hp
    rcases mem_candidateSet_bounds hspep hp with ⟨h1, h2⟩
    have hlo : (3 : ℚ) ≤ duration * p := by nlinarith
    have hhi : duration * p ≤ duration * (99/100) := by nlinarith
    constructor
    · have := le_rndHalfEven (duration * p)
      have : (0 : ℚ) < (rndHalfEven (duration * p) : ℚ) := by linarith
      exact_mod_cast this
    · have := rndHalfEven_le (duration * p)
      linarith
  · intro p hp
    unfold sortedPoints at hp
    rw [Finset.mem_sort] at hp
    exact mem_candidateSet_blacklist hp

/-- Witness for C1_amended at a concrete accepted draw: `n = 3`,
duration 160s, `start_point = 0.05`, `end_point = 0.98`, no jitter,
empty blacklist. -/
theorem C1_witness :
    (candidateSet 3 (1/20) (49/50) (fun _ => 0) []).card = 3
    ∧ (∀ t ∈ cutPointsSeconds 3 160 (1/20) (49/50) (fun _ => 0) [], 0 < t ∧ (t : ℚ) < 160) :=
  have hc : (candidateSet 3 (1/20) (49/50) (fun _ => 0) []).card = 3 := by
    with_unfolding_all decide
  ⟨hc, (C1_amended 3 160 (1/20) (49/50) (fun _ => 0) [] (by norm_num) (by norm_num)
    (by norm_num) (by norm_num) (by norm_num) hc).2.2.2.1⟩

/-!
The retry loop of `generate_cut_points` (lines 430-512). Each `while True`
iteration first checks the failure counter (every 50th counted failure reduces
`segment_cut_duration` by 0.1, or exits fatally at the 0.1 floor), then can
discard the candidate set for four reasons, in source order:
fewer than `n` distinct valid points, interactive user rejection, a scene
change at some probed point, or an empty extraction result.
Only the scene-change discard increments `calc_failed_counter`.
-/

/-- Events observed by one iteration of the `generate_cut_points` loop.
`userRejects` means the interactive confirmation was required and the answer
was not "yes". -/
structure IterEvents where
  candidateValid : Bool
  userRejects : Bool
  sceneChange : Bool
  extractionEmpty : Bool

/-- Outcome of one loop iteration of `generate_cut_points`. `exhausted` is the
fatal exit taken when the counter check finds `segment_cut_duration` at its
0.1 floor (the code breaks out of the loop and then fails on the unassigned
`temp_files_preview`, the condition the spec calls GenerationExhaustedError). -/
inductive IterOutcome where
  | exhausted
  | retry
  | success
deriving DecidableEq

/-- One iteration of the `while True` loop of `generate_cut_points`, acting on
`(calc_failed_counter, segment_cut_duration)`. -/
def loopIter (counter : ℕ) (segment_cut_duration : ℚ) (ev : IterEvents) :
    ℕ × ℚ × IterOutcome :=
  if counter % 50 = 0 ∧ 0 < counter ∧ segment_cut_duration ≤ 1/10 then
    (counter, segment_cut_duration, .exhausted)
  else
    let segment_cut_duration :=
      if counter % 50 = 0 ∧ 0 < counter then roundTo 2 (segment_cut_duration - 1/10)
      else segment_cut_duration
    if ev.candidateValid = false then (counter, segment_cut_duration, .retry)
    else if ev.userRejects = true then (counter, segment_cut_duration, .retry)
    else if ev.sceneChange = true then (counter + 1, segment_cut_duration, .retry)
    else if ev.extractionEmpty = true then (counter, segment_cut_duration, .retry)
    else (counter, segment_cut_duration, .success)

/-- The events of an iteration whose candidate set is valid but where the
scene-change check reports a change at some probed point. -/
def alwaysChangeEvents : IterEvents :=
  { candidateValid := true, userRejects := false, sceneChange := true,
    extractionEmpty := false }

/-- Running `generate_cut_points` when every scene-change probe reports a
change: iterate `loopIter` with `alwaysChangeEvents`. `some c` means the loop
took the fatal generation-exhausted exit after exactly `c` counted discards;
`none` means the fuel ran out (the loop was still running). -/
def plannerDiscards : ℕ → ℕ → ℚ → Option ℕ
  | 0, _, _ => none
  | fuel + 1, counter, segdur =>
    match loopIter counter segdur alwaysChangeEvents with
    | (c, _, .exhausted) => some c
    | (c, s, .retry) => plannerDiscards fuel c s
    | (_, _, .success) => none

set_option maxRecDepth 10000 in
/-- C2. On every 50th counted failure (counter a positive multiple of 50) the
segment duration drops by 0.1s (as `round(x - 0.1, 2)`); at the 0.1s floor the
loop takes the fatal generation-exhausted exit; and with the documented default
initial segment duration of 1.5s and a scene-change report on every probe the
planner exhausts after exactly 750 counted discard cycles - a bounded,
deterministic number. -/
theorem C2_theorem :
    (∀ (c : ℕ) (s : ℚ) (ev : IterEvents), c % 50 = 0 → 0 < c → 1/10 < s →
      (loopIter c s ev).2.1 = roundTo 2 (s - 1/10))
    ∧ (∀ (c : ℕ) (s : ℚ) (ev : IterEvents), c % 50 = 0 → 0 < c → s ≤ 1/10 →
      loopIter c s ev = (c, s, .exhausted))
    ∧ plannerDiscards 800 0 (3/2) = some 750 := by
  refine ⟨?_, ?_, by with_unfolding_all decide⟩
  · intro c s ev h1 h2 h3
    have hng : ¬(c % 50 = 0 ∧ 0 < c ∧ s ≤ 1/10) := fun h => absurd h.2.2 (not_le.mpr h3)
    obtain ⟨cv, ur, sc, ee⟩ := ev
    simp only [loopIter, if_neg hng, if_pos (⟨h1, h2⟩ : c % 50 = 0 ∧ 0 < c)]
    cases cv <;> cases ur <;> cases sc <;> cases ee <;> rfl
  · intro c s ev h1 h2 h3
    simp only [loopIter, if_pos (⟨h1, h2, h3⟩ : c % 50 = 0 ∧ 0 < c ∧ s ≤ 1/10)]

/-- Witness for C2_theorem: at counter 50 with duration 1.5 the iteration
reduces the duration to `round(1.4, 2)`; at the 0.1 floor it exits fatally. -/
theorem C2_witness :
    (loopIter 50 (3/2) alwaysChangeEvents).2.1 = roundTo 2 (3/2 - 1/10)
    ∧ loopIter 50 (1/10) alwaysChangeEvents = (50, 1/10, .exhausted) :=
  ⟨C2_theorem.1 50 (3/2) alwaysChangeEvents rfl (by norm_num) (by norm_num),
   C2_theorem.2.1 50 (1/10) alwaysChangeEvents rfl (by norm_num) le_rfl⟩

/-- C3 counterexample. Two discarded candidate sets that leave the failure
counter unchanged: a set with fewer than `n` distinct valid points
(`candidateValid = false`), and an interactive user rejection
(`userRejects = true`). Both iterations end in a retry (a discard) with the
counter still at 0, refuting the claim that the counter increments on every
discard. -/
theorem C3_counterexample :
    loopIter 0 (3/2)
      { candidateValid := false, userRejects := false, sceneChange := false,
        extractionEmpty := false } = (0, 3/2, .retry)
    ∧ loopIter 0 (3/2)
      { candidateValid := true, userRejects := true, sceneChange := false,
        extractionEmpty := false } = (0, 3/2, .retry) := by
  with_unfolding_all decide

/-- C3 amended. The failure counter increments exactly on scene-change
discards: an iteration that reaches the scene check and sees a change adds 1;
discards for an invalid candidate set, a user rejection or an empty extraction
leave the counter unchanged. -/
theorem C3_amended (c : ℕ) (s : ℚ) (ev : IterEvents) :
    (loopIter c s ev).1 =
      if c % 50 = 0 ∧ 0 < c ∧ s ≤ 1/10 then c
      else if ev.candidateValid = true ∧ ev.userRejects = false ∧ ev.sceneChange = true
      then c + 1 else c := by
  unfold loopIter
  by_cases h : c % 50 = 0 ∧ 0 < c ∧ s ≤ 1/10
  · rw [if_pos h, if_pos h]
  · rw [if_neg h, if_neg h]
    obtain ⟨cv, ur, sc, ee⟩ := ev
    cases cv <;> cases ur <;> cases sc <;> cases ee <;> simp

/-!
`check_scene_changes_at_timestamp` (lines 570-613). The ffmpeg probe is
invoked with `-ss max(timestamp - 0.1, 0)` and `-t segment_cut_duration + 0.1`
and the filter `select=gt(scene,0.2)`; its outcome is modelled by an oracle.
The code then returns False when `"Error" in stderr`; otherwise it scans the
stderr lines for the first one containing `pts_time` (True if its float field
parses, an exception - caught, returning False - if it does not); any
exception from the call itself also yields False. `run_command` never raises
and imposes no timeout: on an internal failure it returns exit code 99 with
the exception text as stderr.
-/

/-- The fixed `scene_threshold` of `check_scene_changes_at_timestamp`. -/
def sceneThreshold : ℚ := 2/10

/-- The `-ss` argument of the probe command: `max(timestamp - 0.1, 0)`. -/
def probeRequestStart (timestamp : ℚ) : ℚ := max (timestamp - 1/10) 0

/-- The `-t` argument of the probe command: `segment_cut_duration + 0.1`. -/
def probeRequestLen (segment_cut_duration : ℚ) : ℚ := segment_cut_duration + 1/10

/-- The right endpoint of the interval the probe actually decodes:
request start plus request length. -/
def inspectedIntervalEnd (timestamp segment_cut_duration : ℚ) : ℚ :=
  probeRequestStart timestamp + probeRequestLen segment_cut_duration

/-- One line of the probe's stderr, as seen by the scanning loop.
`ptsTime q` is a line containing `pts_time` whose float field parses to `q`;
`ptsBad` is a line containing `pts_time` whose float field does not parse
(the `float(...)` call raises); `other` is any other line. -/
inductive ProbeLine where
  | ptsTime (q : ℚ)
  | ptsBad
  | other
deriving DecidableEq

/-- Outcome of the probe subprocess: `completed` carries whether `"Error"`
occurs in stderr and the stderr lines; `failed` is an exception reaching the
outer `except` handler. -/
inductive ProbeOutcome where
  | completed (stderrHasError : Bool) (lines : List ProbeLine)
  | failed
deriving DecidableEq

/-- The stderr scanning loop: stops with True at the first `pts_time` line;
a `pts_time` line whose float field fails to parse raises, and the outer
handler turns that into False. -/
def scanStderr : List ProbeLine → Bool
  | [] => false
  | .ptsTime _ :: _ => true
  | .ptsBad :: _ => false
  | .other :: rest => scanStderr rest

/-- `check_scene_changes_at_timestamp`, with the probe call abstracted as an
oracle receiving the `-ss` and `-t` arguments the code computes. -/
def check_scene_changes_at_timestamp (timestamp segment_cut_duration : ℚ)
    (probe : ℚ → ℚ → ProbeOutcome) : Bool :=
  match probe (probeRequestStart timestamp) (probeRequestLen segment_cut_duration) with
  | .failed => false
  | .completed stderrHasError lines =>
    if stderrHasError then false else scanStderr lines

/-- `scene_change_found` in `generate_cut_points` (lines 479-485): the
candidate set is rejected when the check reports a change at any cut point. -/
def scene_change_found (cut_points_seconds : List ℤ) (check : ℤ → Bool) : Bool :=
  cut_points_seconds.any check

/-- C4 counterexample. For `timestamp = 1` and window `1` the probe decodes
`[0.9, 0.9 + 1.1] = [0.9, 2]`, whose right endpoint differs from the claimed
`timestamp + window + 0.1 = 2.1`: the `-t` argument is a length added to the
shifted start, so the inspected interval ends at `timestamp + window`. -/
theorem C4_counterexample :
    probeRequestStart 1 = 9/10
    ∧ inspectedIntervalEnd 1 1 = 2
    ∧ (2 : ℚ) ≠ 1 + 1 + 1/10 := by
  refine ⟨?_, ?_, by norm_num⟩
  · unfold probeRequestStart
    norm_num
  · unfold inspectedIntervalEnd probeRequestStart probeRequestLen
    norm_num

/-- C4 amended. The probe inspects `[max(timestamp-0.1,0),
max(timestamp-0.1,0) + window + 0.1]`, which equals
`[timestamp-0.1, timestamp+window]` whenever `timestamp ≥ 0.1`, for a
frame-to-frame difference above the fixed threshold 0.2; the function returns
true at the first `pts_time` frame line, and false when no such line is found
or the probe reports an error or fails. -/
theorem C4_amended (t w : ℚ) (probe : ℚ → ℚ → ProbeOutcome) :
    (1/10 ≤ t → inspectedIntervalEnd t w = t + w)
    ∧ probeRequestStart t = max (t - 1/10) 0
    ∧ sceneThreshold = 2/10
    ∧ (probe (probeRequestStart t) (probeRequestLen w) = .failed →
        check_scene_changes_at_timestamp t w probe = false)
    ∧ (∀ lines, probe (probeRequestStart t) (probeRequestLen w) = .completed true lines →
        check_scene_changes_at_timestamp t w probe = false)
    ∧ (∀ lines, probe (probeRequestStart t) (probeRequestLen w) = .completed false lines →
        check_scene_changes_at_timestamp t w probe = scanStderr lines)
    ∧ (∀ q rest, scanStderr (.ptsTime q :: rest) = true)
    ∧ (∀ rest, scanStderr (.other :: rest) = scanStderr rest)
    ∧ scanStderr [] = false := by
  refine ⟨?_, rfl, rfl, ?_, ?_, ?_, fun q rest => rfl, fun rest => rfl, rfl⟩
  · intro ht
    unfold inspectedIntervalEnd probeRequestStart probeRequestLen
    rw [max_eq_left (by linarith)]
    ring
  · intro h
    unfold check_scene_changes_at_timestamp
    rw [h]
  · intro lines h
    unfold check_scene_changes_at_timestamp
    rw [h]
    rfl
  · intro lines h
    unfold check_scene_changes_at_timestamp
    rw [h]
    rfl

/-- Concrete probe oracle used by the C4 witness: completes without error and
reports one scene frame. -/
def c4probe : ℚ → ℚ → ProbeOutcome :=
  fun _ _ => ProbeOutcome.completed false [.other, .ptsTime 2]

/-- Witness for C4_amended at `timestamp = 1`, window `1.5`, with a probe
that completes and reports a frame. -/
theorem C4_witness :
    inspectedIntervalEnd 1 (3/2) = 1 + 3/2
    ∧ check_scene_changes_at_timestamp 1 (3/2) c4probe = scanStderr [.other, .ptsTime 2] :=
  ⟨(C4_amended 1 (3/2) c4probe).1 (by norm_num),
   (C4_amended 1 (3/2) c4probe).2.2.2.2.2.1 [.other, .ptsTime 2] rfl⟩

/-- C5 counterexample. When the probe call fails to complete (the exception
handler path), `check_scene_changes_at_timestamp` returns false, not the
claimed true. -/
theorem C5_counterexample :
    check_scene_changes_at_timestamp 1 (3/2) (fun _ _ => ProbeOutcome.failed) = false := rfl

/-- C5 amended. A probe call that fails to complete - and likewise one whose
stderr reports an error - makes `check_scene_changes_at_timestamp` return
false ("no change detected"), the opposite of the conservative behaviour the
spec prescribes: the planner then treats the unverifiable point as clean, and
when every check returns false the candidate set is not discarded.
(`run_command` imposes no timeout at all; its internal failures surface as
exit code 99 with the exception text as stderr, not as a raised exception.) -/
theorem C5_amended (t w : ℚ) (lines : List ProbeLine) (cut_points : List ℤ) :
    check_scene_changes_at_timestamp t w (fun _ _ => ProbeOutcome.failed) = false
    ∧ check_scene_changes_at_timestamp t w (fun _ _ => ProbeOutcome.completed true lines) = false
    ∧ scene_change_found cut_points (fun _ => false) = false := by
  refine ⟨rfl, rfl, ?_⟩
  unfold scene_change_found
  simp

/-!
`generate_video_segments` (lines 517-567). For each `(index, start)` in
`enumerate(cut_points, start=1)` the function skips points past the duration,
extracts a clip (success modelled by the oracle `ok index`; on failure the
segment's file is removed from the accumulated list if present and the loop
continues), and on success appends the clip. When `timestamps_mode` is 1 or 2
and a preview sheet is required it additionally appends the return value of
`overlay_timestamp` (lines 558-560), which is the overlaid copy's path on
success and `None` when the overlay ffmpeg call fails (lines 641-647); the
overlay outcome is the oracle `okOv index`, and the appended `None` is
modelled as a `none` entry. The surrounding `while len(temp_files_webp) < 15`
re-runs the whole pass until at least 15 entries accumulate, and inside the
loop an empty list after a pass returns `[]`.
-/

/-- One extracted segment file: its 1-based cut-point index, its start second,
and whether it is the timestamp-overlaid copy. An entry of `temp_files_webp`
is an `Option SegItem`: `some` a file, or `none` - the Python `None` appended
when `overlay_timestamp` fails. -/
structure SegItem where
  index : ℕ
  start : ℤ
  timestamped : Bool
deriving DecidableEq

/-- One pass of the `for index, start in enumerate(cut_points, start=1)` loop,
accumulating into `acc` (the `temp_files_webp` list). -/
def segmentPassAux (duration : ℚ) (ok okOv : ℕ → Bool) (tmode : ℕ) (sheetReq : Bool) :
    List (Option SegItem) → ℕ → List ℤ → List (Option SegItem)
  | acc, _, [] => acc
  | acc, idx, start :: rest =>
    if duration ≤ (start : ℚ) then
      segmentPassAux duration ok okOv tmode sheetReq acc (idx + 1) rest
    else if ok idx = false then
      segmentPassAux duration ok okOv tmode sheetReq
        (acc.erase (some ⟨idx, start, false⟩)) (idx + 1) rest
    else if tmode = 1 ∨ tmode = 2 then
      if sheetReq then
        segmentPassAux duration ok okOv tmode sheetReq
          (acc ++ [some ⟨idx, start, false⟩,
            if okOv idx = true then some ⟨idx, start, true⟩ else none]) (idx + 1) rest
      else
        segmentPassAux duration ok okOv tmode sheetReq
          (acc ++ [some ⟨idx, start, false⟩]) (idx + 1) rest
    else
      segmentPassAux duration ok okOv tmode sheetReq
        (acc ++ [some ⟨idx, start, false⟩]) (idx + 1) rest

/-- One full pass started from an empty accumulator. -/
def segmentPass (duration : ℚ) (ok okOv : ℕ → Bool) (tmode : ℕ) (sheetReq : Bool)
    (cut_points : List ℤ) : List (Option SegItem) :=
  segmentPassAux duration ok okOv tmode sheetReq [] 1 cut_points

/-- The `while len(temp_files_webp) < 15` loop of `generate_video_segments`,
with explicit fuel. With per-index success oracles each pass appends the same
entries, so fuel 16 always suffices for the loop to exit as the source does. -/
def generate_video_segments : ℕ → ℚ → (ℕ → Bool) → (ℕ → Bool) → ℕ → Bool → List ℤ →
    List (Option SegItem) → List (Option SegItem)
  | 0, _, _, _, _, _, _, acc => acc
  | fuel + 1, duration, ok, okOv, tmode, sheetReq, cut_points, acc =>
    if acc.length < 15 then
      if segmentPassAux duration ok okOv tmode sheetReq acc 1 cut_points = [] then []
      else generate_video_segments fuel duration ok okOv tmode sheetReq cut_points
        (segmentPassAux duration ok okOv tmode sheetReq acc 1 cut_points)
    else acc

/-- The cut points that survive extraction: start before the end of the video
and a successful extraction call, indexed from 1. -/
def survivingIdx (duration : ℚ) (ok : ℕ → Bool) : ℕ → List ℤ → List ℕ
  | _, [] => []
  | idx, start :: rest =>
    if (start : ℚ) < duration ∧ ok idx = true then
      idx :: survivingIdx duration ok (idx + 1) rest
    else survivingIdx duration ok (idx + 1) rest

/-- The line-keeping predicate of `filter_and_save_timestamped`
(lines 698-736) on a segment file: mode 1 keeps overlaid lines, mode 2 keeps
overlaid lines only for the sheet playlist, anything else keeps the plain
lines. -/
def keepLine (tmode : ℕ) (isSheet : Bool) (l : SegItem) : Bool :=
  if tmode = 1 then l.timestamped
  else if tmode = 2 ∧ isSheet = true then l.timestamped
  else !l.timestamped

/-- The same predicate on a written concat-list entry. A `none` entry renders
as the line `file 'None'`, which does not contain the `timestamped_` marker,
so it is kept exactly when plain lines are kept. -/
def keepEntry (tmode : ℕ) (isSheet : Bool) : Option SegItem → Bool
  | some l => keepLine tmode isSheet l
  | none =>
    if tmode = 1 then false
    else if tmode = 2 ∧ isSheet = true then false
    else true

/-- `filter_and_save_timestamped`: the playlist derived from a concat list.
(For mode 3 the source returns the original file unchanged; since mode 3
produces no overlaid lines and no overlay calls, filtering is the identity
there.) -/
def filter_and_save_timestamped (lines : List (Option SegItem)) (tmode : ℕ)
    (isSheet : Bool) : List (Option SegItem) :=
  lines.filter (keepEntry tmode isSheet)

/-- A single-quote character, used in concat-list lines. -/
def squote : String := String.singleton (Char.ofNat 39)

/-- The temp file path of a segment (abbreviated form of
`{base}_start-..._cutpoint-{index}_position-....mp4`, with the overlay prefix
`timestamped_` used by `overlay_timestamp`). -/
def segPath (base : String) (it : SegItem) : String :=
  (if it.timestamped then "timestamped_" else "")
    ++ base ++ "_cutpoint-" ++ toString it.index ++ ".mp4"

/-- What one accumulated entry renders to inside a concat-list line: a `none`
entry is formatted by the f-string as the text `None`. -/
def entryPath (base : String) : Option SegItem → String
  | some it => segPath base it
  | none => "None"

/-- The concat-list file written by `process_video` (lines 272-275): one line
`file '<path>'` per accumulated entry, in accumulation order. -/
def concatListLines (base : String) (items : List (Option SegItem)) : List String :=
  items.map (fun e => "file " ++ squote ++ entryPath base e ++ squote)

/-- Invariant on accumulated entries: every real (non-`none`) entry came from
a successful extraction. -/
def okSome (ok : ℕ → Bool) (e : Option SegItem) : Prop :=
  ∀ it, e = some it → ok it.index = true

theorem okSome_append {ok : ℕ → Bool} {acc L : List (Option SegItem)}
    (h : ∀ e ∈ acc, okSome ok e) (hL : ∀ e ∈ L, okSome ok e) :
    ∀ e ∈ acc ++ L, okSome ok e := by
  intro e he
  rcases List.mem_append.mp he with hh | hh
  · exact h _ hh
  · exact hL _ hh

theorem okSome_pairX {ok : ℕ → Bool} {idx : ℕ} {start : ℤ} {X : Option SegItem}
    (hok : ok idx = true) (hX : X = some ⟨idx, start, true⟩ ∨ X = none) :
    ∀ e ∈ [some (⟨idx, start, false⟩ : SegItem), X], okSome ok e := by
  intro e he it heq
  simp only [List.mem_cons, List.not_mem_nil, or_false] at he
  rcases he with h5 | h5
  · rw [h5] at heq
    injection heq with h6
    rw [← h6]
    exact hok
  · rcases hX with hX | hX <;> rw [h5, hX] at heq
    · injection heq with h6
      rw [← h6]
      exact hok
    · exact Option.noConfusion heq

theorem pairX_index {idx : ℕ} {start : ℤ} {X : Option SegItem} {a : SegItem}
    (hX : X = some ⟨idx, start, true⟩ ∨ X = none)
    (ha : some a ∈ [some (⟨idx, start, false⟩ : SegItem), X]) : a.index = idx := by
  simp only [List.mem_cons, List.not_mem_nil, or_false] at ha
  rcases ha with h5 | h5
  · injection h5 with h6
    rw [h6]
  · rcases hX with hX | hX <;> rw [hX] at h5
    · injection h5 with h6
      rw [h6]
    · exact Option.noConfusion h5

theorem okSome_single {ok : ℕ → Bool} {idx : ℕ} {start : ℤ} (hok : ok idx = true) :
    ∀ e ∈ [some (⟨idx, start, false⟩ : SegItem)], okSome ok e := by
  intro e he it heq
  rw [List.mem_singleton.mp he] at heq
  injection heq with h6
  rw [← h6]
  exact hok

/-- A pass only grows the accumulator: when every accumulated real entry came
from a successful extraction, the `remove` in the failure branch never fires,
so the pass equals the accumulator followed by the pass from an empty
accumulator. -/
theorem segmentPassAux_acc (duration : ℚ) (ok okOv : ℕ → Bool) (tmode : ℕ)
    (sheetReq : Bool) (cuts : List ℤ) :
    ∀ (acc : List (Option SegItem)) (idx : ℕ), (∀ e ∈ acc, okSome ok e) →
      segmentPassAux duration ok okOv tmode sheetReq acc idx cuts
        = acc ++ segmentPassAux duration ok okOv tmode sheetReq [] idx cuts := by
  induction cuts with
  | nil => intro acc idx h; simp [segmentPassAux]
  | cons start rest ih =>
    intro acc idx h
    unfold segmentPassAux
    split_ifs with h1 h2 h3 h4 hov
    · exact ih acc idx.succ h
    · have hx : (some (⟨idx, start, false⟩ : SegItem)) ∉ acc := by
        intro hm
        have hit : ok idx = true := h _ hm _ rfl
        rw [h2] at hit
        exact Bool.false_ne_true hit
      rw [List.erase_of_not_mem hx, List.erase_nil]
      exact ih acc idx.succ h
    · have hok : ok idx = true := by revert h2; cases ok idx <;> simp
      rw [List.nil_append, ih _ idx.succ (okSome_append h (okSome_pairX hok (Or.inl rfl))),
        ih _ idx.succ (okSome_pairX hok (Or.inl rfl)), List.append_assoc]
    · have hok : ok idx = true := by revert h2; cases ok idx <;> simp
      rw [List.nil_append, ih _ idx.succ (okSome_append h (okSome_pairX hok (Or.inr rfl))),
        ih _ idx.succ (okSome_pairX hok (Or.inr rfl)), List.append_assoc]
    · have hok : ok idx = true := by revert h2; cases ok idx <;> simp
      rw [List.nil_append, ih _ idx.succ (okSome_append h (okSome_single hok)),
        ih _ idx.succ (okSome_single hok), List.append_assoc]
    · have hok : ok idx = true := by revert h2; cases ok idx <;> simp
      rw [List.nil_append, ih _ idx.succ (okSome_append h (okSome_single hok)),
        ih _ idx.succ (okSome_single hok), List.append_assoc]

/-- Every real entry produced by one pass comes from a successful extraction
of a surviving cut point (the `none` entries are failed overlays and carry no
segment). -/
theorem mem_segmentPass (duration : ℚ) (ok okOv : ℕ → Bool) (tmode : ℕ) (sheetReq : Bool)
    (cuts : List ℤ) :
    ∀ (idx : ℕ) (e : Option SegItem),
      e ∈ segmentPassAux duration ok okOv tmode sheetReq [] idx cuts →
      ∀ it : SegItem, e = some it →
        ok it.index = true ∧ it.index ∈ survivingIdx duration ok idx cuts := by
  induction cuts with
  | nil => intro idx e hit; simp [segmentPassAux] at hit
  | cons start rest ih =>
    intro idx e hit it heq
    unfold segmentPassAux at hit
    unfold survivingIdx
    split_ifs at hit with h1 h2 h3 h4 hov
    · rw [if_neg (fun hc => absurd hc.1 (not_lt.mpr h1))]
      exact ih (idx + 1) e hit it heq
    · rw [List.erase_nil] at hit
      rw [if_neg (fun hc => by rw [h2] at hc; exact Bool.false_ne_true hc.2)]
      exact ih (idx + 1) e hit it heq
    · have hok : ok idx = true := by revert h2; cases ok idx <;> simp
      rw [if_pos ⟨not_le.mp h1, hok⟩]
      rw [List.nil_append,
        segmentPassAux_acc duration ok okOv tmode sheetReq rest _ (idx + 1)
          (okSome_pairX hok (Or.inl rfl))] at hit
      rcases List.mem_append.mp hit with hh | hh
      · have hidx : it.index = idx := pairX_index (Or.inl rfl) (heq ▸ hh)
        rw [hidx]
        exact ⟨hok, List.mem_cons_self _ _⟩
      · rcases ih (idx + 1) e hh it heq with ⟨ha, hb⟩
        exact ⟨ha, List.mem_cons_of_mem _ hb⟩
    · have hok : ok idx = true := by revert h2; cases ok idx <;> simp
      rw [if_pos ⟨not_le.mp h1, hok⟩]
      rw [List.nil_append,
        segmentPassAux_acc duration ok okOv tmode sheetReq rest _ (idx + 1)
          (okSome_pairX hok (Or.inr rfl))] at hit
      rcases List.mem_append.mp hit with hh | hh
      · have hidx : it.index = idx := pairX_index (Or.inr rfl) (heq ▸ hh)
        rw [hidx]
        exact ⟨hok, List.mem_cons_self _ _⟩
      · rcases ih (idx + 1) e hh it heq with ⟨ha, hb⟩
        exact ⟨ha, List.mem_cons_of_mem _ hb⟩
    · have hok : ok idx = true := by revert h2; cases ok idx <;> simp
      rw [if_pos ⟨not_le.mp h1, hok⟩]
      rw [List.nil_append,
        segmentPassAux_acc duration ok okOv tmode sheetReq rest _ (idx + 1)
          (okSome_single hok)] at hit
      rcases List.mem_append.mp hit with hh | hh
      · rw [List.mem_singleton.mp hh] at heq
        injection heq with h6
        rw [← h6]
        exact ⟨hok, List.mem_cons_self _ _⟩
      · rcases ih (idx + 1) e hh it heq with ⟨ha, hb⟩
        exact ⟨ha, List.mem_cons_of_mem _ hb⟩
    · have hok : ok idx = true := by revert h2; cases ok idx <;> simp
      rw [if_pos ⟨not_le.mp h1, hok⟩]
      rw [List.nil_append,
        segmentPassAux_acc duration ok okOv tmode sheetReq rest _ (idx + 1)
          (okSome_single hok)] at hit
      rcases List.mem_append.mp hit with hh | hh
      · rw [List.mem_singleton.mp hh] at heq
        injection heq with h6
        rw [← h6]
        exact ⟨hok, List.mem_cons_self _ _⟩
      · rcases ih (idx + 1) e hh it heq with ⟨ha, hb⟩
        exact ⟨ha, List.mem_cons_of_mem _ hb⟩

/-- Every surviving cut point contributes a real entry to the pass (its plain
clip is appended before any overlay attempt): a failed extraction drops only
its own segment, and the loop continues with the rest. -/
theorem survivingIdx_mem_pass (duration : ℚ) (ok okOv : ℕ → Bool) (tmode : ℕ)
    (sheetReq : Bool) (cuts : List ℤ) :
    ∀ (idx : ℕ) (i : ℕ), i ∈ survivingIdx duration ok idx cuts →
      ∃ it : SegItem,
        some it ∈ segmentPassAux duration ok okOv tmode sheetReq [] idx cuts
        ∧ it.index = i := by
  induction cuts with
  | nil => intro idx i hi; simp [survivingIdx] at hi
  | cons start rest ih =>
    intro idx i hi
    unfold survivingIdx at hi
    unfold segmentPassAux
    by_cases h1 : duration ≤ (start : ℚ)
    · rw [if_pos h1]
      rw [if_neg (fun hc => absurd hc.1 (not_lt.mpr h1))] at hi
      exact ih (idx + 1) i hi
    · rw [if_neg h1]
      by_cases h2 : ok idx = false
      · rw [if_pos h2, List.erase_nil]
        rw [if_neg (fun hc => by rw [h2] at hc; exact Bool.false_ne_true hc.2)] at hi
        exact ih (idx + 1) i hi
      · have hok : ok idx = true := by revert h2; cases ok idx <;> simp
        rw [if_neg h2]
        rw [if_pos ⟨not_le.mp h1, hok⟩] at hi
        rcases List.mem_cons.mp hi with heq | hi2
        · split_ifs with h3 h4 hov
          · rw [List.nil_append,
              segmentPassAux_acc duration ok okOv tmode sheetReq rest _ (idx + 1)
                (okSome_pairX hok (Or.inl rfl))]
            exact ⟨⟨idx, start, false⟩,
              List.mem_append_left _ (List.mem_cons_self _ _), heq.symm⟩
          · rw [List.nil_append,
              segmentPassAux_acc duration ok okOv tmode sheetReq rest _ (idx + 1)
                (okSome_pairX hok (Or.inr rfl))]
            exact ⟨⟨idx, start, false⟩,
              List.mem_append_left _ (List.mem_cons_self _ _), heq.symm⟩
          · rw [List.nil_append,
              segmentPassAux_acc duration ok okOv tmode sheetReq rest _ (idx + 1)
                (okSome_single hok)]
            exact ⟨⟨idx, start, false⟩,
              List.mem_append_left _ (List.mem_singleton_self _), heq.symm⟩
          · rw [List.nil_append,
              segmentPassAux_acc duration ok okOv tmode sheetReq rest _ (idx + 1)
                (okSome_single hok)]
            exact ⟨⟨idx, start, false⟩,
              List.mem_append_left _ (List.mem_singleton_self _), heq.symm⟩
        · rcases ih (idx + 1) i hi2 with ⟨it, hmem, heq⟩
          split_ifs with h3 h4 hov
          · rw [List.nil_append,
              segmentPassAux_acc duration ok okOv tmode sheetReq rest _ (idx + 1)
                (okSome_pairX hok (Or.inl rfl))]
            exact ⟨it, List.mem_append_right _ hmem, heq⟩
          · rw [List.nil_append,
              segmentPassAux_acc duration ok okOv tmode sheetReq rest _ (idx + 1)
                (okSome_pairX hok (Or.inr rfl))]
            exact ⟨it, List.mem_append_right _ hmem, heq⟩
          · rw [List.nil_append,
              segmentPassAux_acc duration ok okOv tmode sheetReq rest _ (idx + 1)
                (okSome_single hok)]
            exact ⟨it, List.mem_append_right _ hmem, heq⟩
          · rw [List.nil_append,
              segmentPassAux_acc duration ok okOv tmode sheetReq rest _ (idx + 1)
                (okSome_single hok)]
            exact ⟨it, List.mem_append_right _ hmem, heq⟩

/-- The pass is empty exactly when no cut point survives. -/
theorem segmentPass_nil_iff (duration : ℚ) (ok okOv : ℕ → Bool) (tmode : ℕ)
    (sheetReq : Bool) (cuts : List ℤ) :
    ∀ idx, (segmentPassAux duration ok okOv tmode sheetReq [] idx cuts = []
      ↔ survivingIdx duration ok idx cuts = []) := by
  induction cuts with
  | nil => intro idx; simp [segmentPassAux, survivingIdx]
  | cons start rest ih =>
    intro idx
    unfold segmentPassAux survivingIdx
    by_cases h1 : duration ≤ (start : ℚ)
    · rw [if_pos h1, if_neg (fun hc => absurd hc.1 (not_lt.mpr h1))]
      exact ih (idx + 1)
    · rw [if_neg h1]
      by_cases h2 : ok idx = false
      · rw [if_pos h2, List.erase_nil,
          if_neg (fun hc => by rw [h2] at hc; exact Bool.false_ne_true hc.2)]
        exact ih (idx + 1)
      · have hok : ok idx = true := by revert h2; cases ok idx <;> simp
        rw [if_neg h2,
          if_pos (show (start : ℚ) < duration ∧ ok idx = true from ⟨not_le.mp h1, hok⟩)]
        constructor
        · intro hnil
          exfalso
          split_ifs at hnil with h3 h4 hov
          · rw [List.nil_append,
              segmentPassAux_acc duration ok okOv tmode sheetReq rest _ (idx + 1)
                (okSome_pairX hok (Or.inl rfl))] at hnil
            exact List.cons_ne_nil _ _ (List.append_eq_nil.mp hnil).1
          · rw [List.nil_append,
              segmentPassAux_acc duration ok okOv tmode sheetReq rest _ (idx + 1)
                (okSome_pairX hok (Or.inr rfl))] at hnil
            exact List.cons_ne_nil _ _ (List.append_eq_nil.mp hnil).1
          · rw [List.nil_append,
              segmentPassAux_acc duration ok okOv tmode sheetReq rest _ (idx + 1)
                (okSome_single hok)] at hnil
            exact List.cons_ne_nil _ _ (List.append_eq_nil.mp hnil).1
          · rw [List.nil_append,
              segmentPassAux_acc duration ok okOv tmode sheetReq rest _ (idx + 1)
                (okSome_single hok)] at hnil
            exact List.cons_ne_nil _ _ (List.append_eq_nil.mp hnil).1
        · intro hnil
          exact absurd hnil (List.cons_ne_nil _ _)

/-- The while loop only appends to the accumulator (given the accumulated real
entries came from successful extractions, so the failure-branch `remove` never
fires). -/
theorem generate_append (duration : ℚ) (ok okOv : ℕ → Bool) (tmode : ℕ) (sheetReq : Bool)
    (cuts : List ℤ) :
    ∀ (fuel : ℕ) (acc : List (Option SegItem)), (∀ e ∈ acc, okSome ok e) →
      ∃ t, generate_video_segments fuel duration ok okOv tmode sheetReq cuts acc
        = acc ++ t := by
  intro fuel
  induction fuel with
  | zero => intro acc h; exact ⟨[], (List.append_nil acc).symm⟩
  | succ n ihn =>
    intro acc h
    rw [generate_video_segments]
    by_cases hlen : acc.length < 15
    · rw [if_pos hlen]
      by_cases hnil : segmentPassAux duration ok okOv tmode sheetReq acc 1 cuts = []
      · rw [if_pos hnil]
        rw [segmentPassAux_acc duration ok okOv tmode sheetReq cuts acc 1 h] at hnil
        refine ⟨[], ?_⟩
        rw [(List.append_eq_nil.mp hnil).1]
        rfl
      · rw [if_neg hnil]
        have hinv2 : ∀ e ∈ segmentPassAux duration ok okOv tmode sheetReq acc 1 cuts,
            okSome ok e := by
          rw [segmentPassAux_acc duration ok okOv tmode sheetReq cuts acc 1 h]
          exact okSome_append h
            (fun e he it heq =>
              (mem_segmentPass duration ok okOv tmode sheetReq cuts 1 e he it heq).1)
        rcases ihn _ hinv2 with ⟨t, ht⟩
        rw [ht, segmentPassAux_acc duration ok okOv tmode sheetReq cuts acc 1 h,
          List.append_assoc]
        exact ⟨_, rfl⟩
    · rw [if_neg hlen]
      exact ⟨[], (List.append_nil acc).symm⟩

/-- Every real entry the while loop returns comes from a successful extraction
of a surviving cut point. -/
theorem generate_members (duration : ℚ) (ok okOv : ℕ → Bool) (tmode : ℕ) (sheetReq : Bool)
    (cuts : List ℤ) :
    ∀ (fuel : ℕ) (acc : List (Option SegItem)),
      (∀ e ∈ acc, ∀ it : SegItem, e = some it →
        ok it.index = true ∧ it.index ∈ survivingIdx duration ok 1 cuts) →
      ∀ e ∈ generate_video_segments fuel duration ok okOv tmode sheetReq cuts acc,
        ∀ it : SegItem, e = some it →
          ok it.index = true ∧ it.index ∈ survivingIdx duration ok 1 cuts := by
  intro fuel
  induction fuel with
  | zero =>
    intro acc h e he
    exact h e he
  | succ n ihn =>
    intro acc h e he
    rw [generate_video_segments] at he
    by_cases hlen : acc.length < 15
    · rw [if_pos hlen] at he
      by_cases hnil : segmentPassAux duration ok okOv tmode sheetReq acc 1 cuts = []
      · rw [if_pos hnil] at he
        exact absurd he (List.not_mem_nil e)
      · rw [if_neg hnil] at he
        have hacc : ∀ e2 ∈ acc, okSome ok e2 :=
          fun e2 h2 it heq => (h e2 h2 it heq).1
        have hinv2 : ∀ e2 ∈ segmentPassAux duration ok okOv tmode sheetReq acc 1 cuts,
            ∀ it : SegItem, e2 = some it →
              ok it.index = true ∧ it.index ∈ survivingIdx duration ok 1 cuts := by
          rw [segmentPassAux_acc duration ok okOv tmode sheetReq cuts acc 1 hacc]
          intro e2 he2
          rcases List.mem_append.mp he2 with hh | hh
          · exact h _ hh
          · exact mem_segmentPass duration ok okOv tmode sheetReq cuts 1 e2 hh
        exact ihn _ hinv2 e he
    · rw [if_neg hlen] at he
      exact h e he

/-- When at least one cut point survives, the while loop never returns an
empty list. -/
theorem generate_ne_nil (duration : ℚ) (ok okOv : ℕ → Bool) (tmode : ℕ) (sheetReq : Bool)
    (cuts : List ℤ)
    (hpass : segmentPass duration ok okOv tmode sheetReq cuts ≠ []) :
    ∀ (fuel : ℕ) (acc : List (Option SegItem)), (∀ e ∈ acc, okSome ok e) →
      (acc ≠ [] ∨ 1 ≤ fuel) →
      generate_video_segments fuel duration ok okOv tmode sheetReq cuts acc ≠ [] := by
  intro fuel
  induction fuel with
  | zero =>
    intro acc h hd
    rcases hd with hd | hd
    · exact hd
    · omega
  | succ n ihn =>
    intro acc h hd
    rw [generate_video_segments]
    by_cases hlen : acc.length < 15
    · rw [if_pos hlen]
      have hnil : segmentPassAux duration ok okOv tmode sheetReq acc 1 cuts ≠ [] := by
        rw [segmentPassAux_acc duration ok okOv tmode sheetReq cuts acc 1 h]
        intro hc
        exact hpass (List.append_eq_nil.mp hc).2
      rw [if_neg hnil]
      have hinv2 : ∀ e ∈ segmentPassAux duration ok okOv tmode sheetReq acc 1 cuts,
          okSome ok e := by
        rw [segmentPassAux_acc duration ok okOv tmode sheetReq cuts acc 1 h]
        exact okSome_append h
          (fun e he it heq =>
            (mem_segmentPass duration ok okOv tmode sheetReq cuts 1 e he it heq).1)
      exact ihn _ hinv2 (Or.inl hnil)
    · rw [if_neg hlen]
      intro hc
      rw [hc] at hlen
      exact hlen (by simp)

/-- C6. A failed extraction of a single segment is non-fatal: when no cut
point survives the stage returns `[]`, and when at least one survives the
stage returns a nonempty list whose real entries all come from surviving cut
points, with every surviving cut point contributing its clip - failed
segments are dropped and extraction continues with the remaining timestamps.
(A failed overlay call contributes a `none` entry, never a segment, and never
makes the stage fail.) -/
theorem C6_theorem (duration : ℚ) (ok okOv : ℕ → Bool) (tmode : ℕ) (sheetReq : Bool)
    (cuts : List ℤ) :
    (survivingIdx duration ok 1 cuts = [] →
      generate_video_segments 16 duration ok okOv tmode sheetReq cuts [] = [])
    ∧ (survivingIdx duration ok 1 cuts ≠ [] →
      generate_video_segments 16 duration ok okOv tmode sheetReq cuts [] ≠ []
      ∧ (∀ e ∈ generate_video_segments 16 duration ok okOv tmode sheetReq cuts [],
          ∀ it : SegItem, e = some it →
            ok it.index = true ∧ it.index ∈ survivingIdx duration ok 1 cuts)
      ∧ (∀ i ∈ survivingIdx duration ok 1 cuts,
          ∃ it : SegItem,
            some it ∈ generate_video_segments 16 duration ok okOv tmode sheetReq cuts []
            ∧ it.index = i)) := by
  have h16 : (16 : ℕ) = 15 + 1 := rfl
  constructor
  · intro hsur
    have hnil : segmentPassAux duration ok okOv tmode sheetReq [] 1 cuts = [] :=
      (segmentPass_nil_iff duration ok okOv tmode sheetReq cuts 1).mpr hsur
    rw [h16, generate_video_segments, if_pos (by norm_num), if_pos hnil]
  · intro hsur
    have hpass : segmentPass duration ok okOv tmode sheetReq cuts ≠ [] := by
      intro hc
      exact hsur ((segmentPass_nil_iff duration ok okOv tmode sheetReq cuts 1).mp hc)
    refine ⟨?_, ?_, ?_⟩
    · exact generate_ne_nil duration ok okOv tmode sheetReq cuts hpass 16 []
        (by intro e he; exact absurd he (List.not_mem_nil e)) (Or.inr (by norm_num))
    · exact generate_members duration ok okOv tmode sheetReq cuts 16 []
        (by intro e he; exact absurd he (List.not_mem_nil e))
    · intro i hi
      rcases survivingIdx_mem_pass duration ok okOv tmode sheetReq cuts 1 i hi with
        ⟨it, hmem, heq⟩
      have hstep : generate_video_segments 16 duration ok okOv tmode sheetReq cuts []
          = generate_video_segments 15 duration ok okOv tmode sheetReq cuts
              (segmentPassAux duration ok okOv tmode sheetReq [] 1 cuts) := by
        rw [h16, generate_video_segments, if_pos (by norm_num),
          if_neg (show segmentPassAux duration ok okOv tmode sheetReq [] 1 cuts ≠ []
            from hpass)]
      have hinv : ∀ e ∈ segmentPassAux duration ok okOv tmode sheetReq [] 1 cuts,
          okSome ok e :=
        fun e he it heq2 =>
          (mem_segmentPass duration ok okOv tmode sheetReq cuts 1 e he it heq2).1
      rcases generate_append duration ok okOv tmode sheetReq cuts 15 _ hinv with ⟨t, ht⟩
      rw [hstep, ht]
      exact ⟨it, List.mem_append_left _ hmem, heq⟩

/-- Per-cut-point success oracle for the C6 witness: extraction of cut point
2 fails, the others succeed. -/
def c6ok : ℕ → Bool := fun i => !(i == 2)

/-- Witness for C6_theorem: duration 600s, cut points at 10s, 20s, 30s,
extraction of the second one failing, in mode 2 with a sheet required and
every overlay call failing (so the list also holds `none` entries). The stage
still returns a nonempty list, and every real entry comes from surviving
cut points 1 and 3. -/
theorem C6_witness :
    survivingIdx 600 c6ok 1 [10, 20, 30] ≠ []
    ∧ generate_video_segments 16 600 c6ok (fun _ => false) 2 true [10, 20, 30] [] ≠ []
    ∧ (∀ e ∈ generate_video_segments 16 600 c6ok (fun _ => false) 2 true [10, 20, 30] [],
        ∀ it : SegItem, e = some it →
          c6ok it.index = true ∧ it.index ∈ survivingIdx 600 c6ok 1 [10, 20, 30]) :=
  have hsur : survivingIdx 600 c6ok 1 [10, 20, 30] ≠ [] := by
    with_unfolding_all decide
  ⟨hsur, ((C6_theorem 600 c6ok (fun _ => false) 2 true [10, 20, 30]).2 hsur).1,
    ((C6_theorem 600 c6ok (fun _ => false) 2 true [10, 20, 30]).2 hsur).2.1⟩

theorem survivingIdx_ge (duration : ℚ) (ok : ℕ → Bool) :
    ∀ (cuts : List ℤ) (idx i : ℕ), i ∈ survivingIdx duration ok idx cuts → idx ≤ i := by
  intro cuts
  induction cuts with
  | nil => intro idx i hi; simp [survivingIdx] at hi
  | cons start rest ih =>
    intro idx i hi
    unfold survivingIdx at hi
    split_ifs at hi with h1
    · rcases List.mem_cons.mp hi with rfl | hi2
      · exact le_refl _
      · exact le_trans (Nat.le_succ idx) (ih (idx + 1) i hi2)
    · exact le_trans (Nat.le_succ idx) (ih (idx + 1) i hi)

/-- The segment lines kept from one plain/overlay entry group: at most one
real segment line survives the filter (a kept `none` entry is a stray
`file 'None'` line, not a segment line). -/
theorem keepEntry_pairX (tmode : ℕ) (isSheet : Bool) (idx : ℕ) (start : ℤ)
    {X : Option SegItem} (hX : X = some ⟨idx, start, true⟩ ∨ X = none) :
    List.Pairwise (fun a b : SegItem => a.index < b.index)
      ((List.filter (keepEntry tmode isSheet)
        [some ⟨idx, start, false⟩, X]).filterMap id) := by
  rcases hX with hX | hX <;> subst hX <;>
    by_cases ht1 : tmode = 1 <;> by_cases ht2 : tmode = 2 ∧ isSheet = true <;>
      simp [keepEntry, keepLine, ht1, ht2, List.filter, List.filterMap]

theorem keepEntry_single_pairwise (tmode : ℕ) (isSheet : Bool) (idx : ℕ) (start : ℤ) :
    List.Pairwise (fun a b : SegItem => a.index < b.index)
      ((List.filter (keepEntry tmode isSheet)
        [some (⟨idx, start, false⟩ : SegItem)]).filterMap id) := by
  cases hk : keepEntry tmode isSheet (some ⟨idx, start, false⟩) <;>
    simp [List.filter, hk, List.filterMap]

/-- Within one pass, the real segment lines of the playlist obtained by
filtering on the overlay marker are strictly increasing in cut-point index:
each index contributes at most one kept segment line, and lines for later cut
points come later. (Stray `file 'None'` lines from failed overlays are not
segment lines and are skipped by `filterMap`.) -/
theorem filter_segmentPass_pairwise (duration : ℚ) (ok okOv : ℕ → Bool) (tmode : ℕ)
    (sheetReq isSheet : Bool) :
    ∀ (cuts : List ℤ) (idx : ℕ),
      List.Pairwise (fun a b : SegItem => a.index < b.index)
        ((List.filter (keepEntry tmode isSheet)
          (segmentPassAux duration ok okOv tmode sheetReq [] idx cuts)).filterMap id) := by
  intro cuts
  induction cuts with
  | nil => intro idx; simp [segmentPassAux]
  | cons start rest ih =>
    intro idx
    unfold segmentPassAux
    split_ifs with h1 h2 h3 h4 hov
    · exact ih (idx + 1)
    · rw [List.erase_nil]
      exact ih (idx + 1)
    · have hok : ok idx = true := by revert h2; cases ok idx <;> simp
      rw [List.nil_append,
        segmentPassAux_acc duration ok okOv tmode sheetReq rest _ (idx + 1)
          (okSome_pairX hok (Or.inl rfl)),
        List.filter_append, List.filterMap_append]
      apply List.pairwise_append.mpr
      refine ⟨keepEntry_pairX tmode isSheet idx start (Or.inl rfl), ih (idx + 1), ?_⟩
      intro a ha b hb
      rcases List.mem_filterMap.mp ha with ⟨e, he, heq⟩
      have haidx : a.index = idx := by
        rw [show e = some a from heq] at he
        exact pairX_index (Or.inl rfl) (List.mem_of_mem_filter he)
      rcases List.mem_filterMap.mp hb with ⟨e2, he2, heq2⟩
      have hb2 := mem_segmentPass duration ok okOv tmode sheetReq rest (idx + 1) e2
        (List.mem_of_mem_filter he2) b heq2
      have := survivingIdx_ge duration ok rest (idx + 1) b.index hb2.2
      rw [haidx]
      omega
    · have hok : ok idx = true := by revert h2; cases ok idx <;> simp
      rw [List.nil_append,
        segmentPassAux_acc duration ok okOv tmode sheetReq rest _ (idx + 1)
          (okSome_pairX hok (Or.inr rfl)),
        List.filter_append, List.filterMap_append]
      apply List.pairwise_append.mpr
      refine ⟨keepEntry_pairX tmode isSheet idx start (Or.inr rfl), ih (idx + 1), ?_⟩
      intro a ha b hb
      rcases List.mem_filterMap.mp ha with ⟨e, he, heq⟩
      have haidx : a.index = idx := by
        rw [show e = some a from heq] at he
        exact pairX_index (Or.inr rfl) (List.mem_of_mem_filter he)
      rcases List.mem_filterMap.mp hb with ⟨e2, he2, heq2⟩
      have hb2 := mem_segmentPass duration ok okOv tmode sheetReq rest (idx + 1) e2
        (List.mem_of_mem_filter he2) b heq2
      have := survivingIdx_ge duration ok rest (idx + 1) b.index hb2.2
      rw [haidx]
      omega
    · have hok : ok idx = true := by revert h2; cases ok idx <;> simp
      rw [List.nil_append,
        segmentPassAux_acc duration ok okOv tmode sheetReq rest _ (idx + 1)
          (okSome_single hok),
        List.filter_append, List.filterMap_append]
      apply List.pairwise_append.mpr
      refine ⟨keepEntry_single_pairwise tmode isSheet idx start, ih (idx + 1), ?_⟩
      intro a ha b hb
      rcases List.mem_filterMap.mp ha with ⟨e, he, heq⟩
      have haidx : a.index = idx := by
        rw [show e = some a from heq] at he
        have := List.mem_singleton.mp (List.mem_of_mem_filter he)
        injection this with h6
        rw [h6]
      rcases List.mem_filterMap.mp hb with ⟨e2, he2, heq2⟩
      have hb2 := mem_segmentPass duration ok okOv tmode sheetReq rest (idx + 1) e2
        (List.mem_of_mem_filter he2) b heq2
      have := survivingIdx_ge duration ok rest (idx + 1) b.index hb2.2
      rw [haidx]
      omega
    · have hok : ok idx = true := by revert h2; cases ok idx <;> simp
      rw [List.nil_append,
        segmentPassAux_acc duration ok okOv tmode sheetReq rest _ (idx + 1)
          (okSome_single hok),
        List.filter_append, List.filterMap_append]
      apply List.pairwise_append.mpr
      refine ⟨keepEntry_single_pairwise tmode isSheet idx start, ih (idx + 1), ?_⟩
      intro a ha b hb
      rcases List.mem_filterMap.mp ha with ⟨e, he, heq⟩
      have haidx : a.index = idx := by
        rw [show e = some a from heq] at he
        have := List.mem_singleton.mp (List.mem_of_mem_filter he)
        injection this with h6
        rw [h6]
      rcases List.mem_filterMap.mp hb with ⟨e2, he2, heq2⟩
      have hb2 := mem_segmentPass duration ok okOv tmode sheetReq rest (idx + 1) e2
        (List.mem_of_mem_filter he2) b heq2
      have := survivingIdx_ge duration ok rest (idx + 1) b.index hb2.2
      rw [haidx]
      omega

/-- In the modes that call no overlay (`timestamps_mode` not 1 or 2), one pass
lists exactly the surviving cut points, once each, in index order, with no
`none` entries. -/
theorem segmentPass_map_index (duration : ℚ) (ok okOv : ℕ → Bool) (tmode : ℕ)
    (sheetReq : Bool) (hmode : ¬(tmode = 1 ∨ tmode = 2)) :
    ∀ (cuts : List ℤ) (idx : ℕ),
      (segmentPassAux duration ok okOv tmode sheetReq [] idx cuts).map
          (Option.map SegItem.index)
        = (survivingIdx duration ok idx cuts).map some := by
  intro cuts
  induction cuts with
  | nil => intro idx; simp [segmentPassAux, survivingIdx]
  | cons start rest ih =>
    intro idx
    unfold segmentPassAux survivingIdx
    by_cases h1 : duration ≤ (start : ℚ)
    · rw [if_pos h1, if_neg (fun hc => absurd hc.1 (not_lt.mpr h1))]
      exact ih (idx + 1)
    · rw [if_neg h1]
      by_cases h2 : ok idx = false
      · rw [if_pos h2, List.erase_nil,
          if_neg (fun hc => by rw [h2] at hc; exact Bool.false_ne_true hc.2)]
        exact ih (idx + 1)
      · have hok : ok idx = true := by revert h2; cases ok idx <;> simp
        rw [if_neg h2, if_neg hmode, List.nil_append,
          segmentPassAux_acc duration ok okOv tmode sheetReq rest _ (idx + 1)
            (okSome_single hok),
          if_pos (show (start : ℚ) < duration ∧ ok idx = true from ⟨not_le.mp h1, hok⟩),
          List.map_append, ih (idx + 1)]
        rfl

/-- Cut points (in seconds) of the C9 counterexample: 12 segments of a
600-second video, the valid `grid = 4` configuration of the spec's own
end-to-end example. -/
def c9cuts : List ℤ := [30, 60, 90, 120, 150, 180, 210, 240, 270, 300, 330, 360]

set_option maxRecDepth 10000 in
/-- C9 counterexample. With 12 surviving segments, `timestamps_mode = 3` and
no sheet, one extraction pass yields only 12 entries, so the
`while len(temp_files_webp) < 15` loop runs a second pass: the concat list
gets 24 lines - two per surviving segment (cut point 1 appears twice) - and
the line order 1..12,1..12 is not ascending in cut-point index. -/
theorem C9_counterexample :
    (survivingIdx 600 (fun _ => true) 1 c9cuts).length = 12
    ∧ (generate_video_segments 16 600 (fun _ => true) (fun _ => true) 3 false
        c9cuts []).length = 24
    ∧ (((generate_video_segments 16 600 (fun _ => true) (fun _ => true) 3 false
        c9cuts []).filterMap id).map SegItem.index).count 1 = 2
    ∧ ¬ List.Pairwise (fun a b : SegItem => a.index < b.index)
        ((generate_video_segments 16 600 (fun _ => true) (fun _ => true) 3 false
          c9cuts []).filterMap id) := by
  with_unfolding_all decide

/-- C9 amended. Concat-list lines all have the form `file '<path>'` (a failed
overlay contributes the Python `None`, written as the line `file 'None'`) and
are whole passes of the surviving segments; when a single pass reaches the
15-entry threshold the file is exactly that one pass. In each derived playlist
(after the overlay-marker filter) the real segment lines are strictly
ascending in cut-point index with at most one line per cut point - a kept
`file 'None'` stray is not a segment line - and in the modes without overlay
calls the pass lists each surviving segment exactly once in index order, with
no stray lines. With fewer than 15 entries per pass the segments are
repeated. -/
theorem C9_amended (duration : ℚ) (ok okOv : ℕ → Bool) (tmode : ℕ)
    (sheetReq isSheet : Bool) (cuts : List ℤ) (base : String) :
    (15 ≤ (segmentPass duration ok okOv tmode sheetReq cuts).length →
      generate_video_segments 16 duration ok okOv tmode sheetReq cuts []
        = segmentPass duration ok okOv tmode sheetReq cuts)
    ∧ List.Pairwise (fun a b : SegItem => a.index < b.index)
        ((filter_and_save_timestamped (segmentPass duration ok okOv tmode sheetReq cuts)
          tmode isSheet).filterMap id)
    ∧ (¬(tmode = 1 ∨ tmode = 2) →
        (segmentPass duration ok okOv tmode sheetReq cuts).map (Option.map SegItem.index)
          = (survivingIdx duration ok 1 cuts).map some)
    ∧ (∀ l ∈ concatListLines base
          (generate_video_segments 16 duration ok okOv tmode sheetReq cuts []),
        ∃ e ∈ generate_video_segments 16 duration ok okOv tmode sheetReq cuts [],
          l = "file " ++ squote ++ entryPath base e ++ squote) := by
  refine ⟨?_, ?_, ?_, ?_⟩
  · intro h
    have hne : segmentPassAux duration ok okOv tmode sheetReq [] 1 cuts ≠ [] := by
      intro hc
      rw [show segmentPass duration ok okOv tmode sheetReq cuts
        = segmentPassAux duration ok okOv tmode sheetReq [] 1 cuts from rfl, hc] at h
      simp at h
    have h16 : (16 : ℕ) = 15 + 1 := rfl
    have h15 : (15 : ℕ) = 14 + 1 := rfl
    rw [h16, generate_video_segments, if_pos (by norm_num), if_neg hne, h15,
      generate_video_segments,
      if_neg (not_lt.mpr (show (15 : ℕ)
        ≤ (segmentPassAux duration ok okOv tmode sheetReq [] 1 cuts).length from h))]
    rfl
  · exact filter_segmentPass_pairwise duration ok okOv tmode sheetReq isSheet cuts 1
  · intro hmode
    exact segmentPass_map_index duration ok okOv tmode sheetReq hmode cuts 1
  · intro l hl
    rcases List.mem_map.mp hl with ⟨e, he, rfl⟩
    exact ⟨e, he, rfl⟩

/-- Cut points for the C9 witness: 15 segments, so one pass reaches the
15-entry threshold. -/
def c9wcuts : List ℤ :=
  [10, 20, 30, 40, 50, 60, 70, 80, 90, 100, 110, 120, 130, 140, 150]

set_option maxRecDepth 10000 in
/-- Witness for C9_amended: 15 surviving segments at `timestamps_mode = 3`
(no overlay calls, whatever the overlay oracle would answer) give a
single-pass concat list, one line per segment in index order. -/
theorem C9_witness :
    15 ≤ (segmentPass 600 (fun _ => true) (fun _ => false) 3 false c9wcuts).length
    ∧ generate_video_segments 16 600 (fun _ => true) (fun _ => false) 3 false c9wcuts []
        = segmentPass 600 (fun _ => true) (fun _ => false) 3 false c9wcuts
    ∧ (segmentPass 600 (fun _ => true) (fun _ => false) 3 false c9wcuts).map
          (Option.map SegItem.index)
        = (survivingIdx 600 (fun _ => true) 1 c9wcuts).map some :=
  have h : 15 ≤ (segmentPass 600 (fun _ => true) (fun _ => false) 3 false c9wcuts).length := by
    with_unfolding_all decide
  ⟨h, (C9_amended 600 (fun _ => true) (fun _ => false) 3 false false c9wcuts "seg").1 h,
    (C9_amended 600 (fun _ => true) (fun _ => false) 3 false false c9wcuts "seg").2.2.1
      (by simp)⟩

/-!
`validate_preview_sheet_requirements` (lines 66-106). The gif-segment bound is
checked first; with no sheet format enabled the function returns True before
any grid check; raised ValueError/TypeError are caught and become False, and
an unsupported grid returns False. (The `isinstance` number check cannot fire
on the integer inputs modelled here.)
-/

/-- `validate_preview_sheet_requirements`, on integer configuration values. -/
def validate_preview_sheet_requirements (grid_width num_of_segments : ℤ)
    (number_of_segments_gif : ℤ)
    (create_webp_sheet create_gif_sheet create_webm_sheet : Bool) : Bool :=
  if number_of_segments_gif > num_of_segments ∨ number_of_segments_gif ≤ 0 then false
  else if ¬(create_webp_sheet = true ∨ create_gif_sheet = true ∨ create_webm_sheet = true)
    then true
  else if grid_width = 3 then
    if ¬(num_of_segments % 3 = 0) then false
    else if num_of_segments < 9 then false
    else if num_of_segments > 30 then false
    else true
  else if grid_width = 4 then
    if ¬(num_of_segments % 4 = 0) then false
    else if num_of_segments < 12 then false
    else if num_of_segments > 28 then false
    else true
  else false

/-- C8 counterexample. With no sheet format enabled, the unsupported grid
value 5 with 7 segments (not divisible by 3 or 4, below every floor) is
accepted, refuting the claim that configuration validation rejects these
combinations unconditionally. -/
theorem C8_counterexample :
    validate_preview_sheet_requirements 5 7 1 false false false = true := by
  with_unfolding_all decide

/-- C8 amended. The gif-subset bound (`0 < size ≤ n`) is enforced
unconditionally, and - when at least one sheet output format is enabled -
grid 3 rejects segment counts not divisible by 3, below 9 or above 30;
grid 4 rejects counts not divisible by 4, below 12 or above 28; and any other
grid value is rejected. (With all sheet formats disabled the grid checks are
skipped, see C10.) -/
theorem C8_amended (grid n gifN : ℤ) (w g wm : Bool) :
    ((gifN ≤ 0 ∨ n < gifN) →
      validate_preview_sheet_requirements grid n gifN w g wm = false)
    ∧ ((w = true ∨ g = true ∨ wm = true) →
        ((grid = 3 → (¬(n % 3 = 0) ∨ n < 9 ∨ 30 < n) →
          validate_preview_sheet_requirements grid n gifN w g wm = false)
        ∧ (grid = 4 → (¬(n % 4 = 0) ∨ n < 12 ∨ 28 < n) →
          validate_preview_sheet_requirements grid n gifN w g wm = false)
        ∧ (grid ≠ 3 → grid ≠ 4 →
          validate_preview_sheet_requirements grid n gifN w g wm = false))) := by
  unfold validate_preview_sheet_requirements
  constructor
  · intro h
    rcases h with h | h
    · rw [if_pos (Or.inr h)]
    · rw [if_pos (Or.inl (by omega))]
  · intro hsheet
    by_cases hgif : gifN > n ∨ gifN ≤ 0
    · refine ⟨fun _ _ => ?_, fun _ _ => ?_, fun _ _ => ?_⟩ <;> rw [if_pos hgif]
    · rw [if_neg hgif, if_neg (not_not_intro hsheet)]
      refine ⟨?_, ?_, ?_⟩
      · intro h3 hviol
        rw [if_pos h3]
        split_ifs with h5 h6 h7 <;> try rfl
        rcases hviol with hv | hv | hv
        · exact absurd h5 hv
        · exact absurd hv h6
        · exact absurd hv h7
      · intro h4 hviol
        have h3 : grid ≠ 3 := by rw [h4]; norm_num
        rw [if_neg h3, if_pos h4]
        split_ifs with h5 h6 h7 <;> try rfl
        rcases hviol with hv | hv | hv
        · exact absurd h5 hv
        · exact absurd hv h6
        · exact absurd hv h7
      · intro h3 h4
        rw [if_neg h3, if_neg h4]

/-- Witness for C8_amended: with a sheet enabled, grid 3 with 10 segments is
rejected; and a gif-subset size of 0 is rejected. -/
theorem C8_witness :
    validate_preview_sheet_requirements 3 10 2 true false false = false
    ∧ validate_preview_sheet_requirements 3 9 0 true false false = false :=
  ⟨((C8_amended 3 10 2 true false false).2 (Or.inl rfl)).1 rfl
      (Or.inl (by norm_num)),
    (C8_amended 3 9 0 true false false).1 (Or.inl le_rfl)⟩

/-- C10. When none of the three sheet output formats is enabled, only the
gif-subset bound is checked: any grid value and any segment count passing
`0 < gif-subset ≤ n` is accepted, and the bound itself still rejects. -/
theorem C10_theorem (grid n gifN : ℤ) :
    (0 < gifN → gifN ≤ n →
      validate_preview_sheet_requirements grid n gifN false false false = true)
    ∧ ((gifN ≤ 0 ∨ n < gifN) →
      validate_preview_sheet_requirements grid n gifN false false false = false) := by
  unfold validate_preview_sheet_requirements
  constructor
  · intro h1 h2
    rw [if_neg (by omega : ¬(gifN > n ∨ gifN ≤ 0)), if_pos (by simp)]
  · intro h
    rcases h with h | h
    · rw [if_pos (Or.inr h)]
    · rw [if_pos (Or.inl (by omega))]

/-- Witness for C10_theorem: the unsupported grid 5 with 10 segments (not
divisible by anything required) is accepted when no sheet is enabled, while a
gif-subset size of 0 is still rejected. -/
theorem C10_witness :
    validate_preview_sheet_requirements 5 10 3 false false false = true
    ∧ validate_preview_sheet_requirements 5 10 0 false false false = false :=
  ⟨(C10_theorem 5 10 3).1 (by norm_num) (by norm_num),
    (C10_theorem 5 10 0).2 (Or.inl le_rfl)⟩

/-!
`trim_concat_list_file` (lines 650-695). Reads the concat list, and when it
has more lines than the target keeps `lines[:2]` and `lines[-2:]`, draws
`random.sample(middle, target - 4)` from `middle = lines[2:-2]` (raising
ValueError when that count is negative), then in every branch sorts the
resulting lines by the number in `cutpoint-<n>` (lines with no match sort as
`float('inf')`; Python's stable sort is modelled by stable insertion sort).
The `random.sample` draw is passed in as the `sample` parameter.
-/

/-- A concat-list line as `trim_concat_list_file` sees it: the number matched
by `cutpoint-(\d+)` if any, plus a tag standing for the rest of the line
text. -/
structure ConcatLine where
  cutIdx : Option ℕ
  tag : ℕ
deriving DecidableEq

/-- Sort key comparison of `extract_cut_point_number`: matched numbers compare
by value, a missing match sorts as infinity. -/
def keyLe (a b : ConcatLine) : Prop :=
  match a.cutIdx, b.cutIdx with
  | some m, some n => m ≤ n
  | some _, none => True
  | none, some _ => False
  | none, none => True

instance keyLe.instDec : ∀ a b, Decidable (keyLe a b) := fun a b =>
  match a, b with
  | ⟨some m, _⟩, ⟨some n, _⟩ => inferInstanceAs (Decidable (m ≤ n))
  | ⟨some _, _⟩, ⟨none, _⟩ => inferInstanceAs (Decidable True)
  | ⟨none, _⟩, ⟨some _, _⟩ => inferInstanceAs (Decidable False)
  | ⟨none, _⟩, ⟨none, _⟩ => inferInstanceAs (Decidable True)

instance keyLe.instTotal : IsTotal ConcatLine keyLe :=
  ⟨fun a b => by
    obtain ⟨ai, _⟩ := a
    obtain ⟨bi, _⟩ := b
    cases ai <;> cases bi <;> simp [keyLe] <;> omega⟩

instance keyLe.instTrans : IsTrans ConcatLine keyLe :=
  ⟨fun a b c hab hbc => by
    obtain ⟨ai, _⟩ := a
    obtain ⟨bi, _⟩ := b
    obtain ⟨ci, _⟩ := c
    cases ai <;> cases bi <;> cases ci <;> simp [keyLe] at * <;> omega⟩

/-- `trim_concat_list_file`: `.error ()` models the raised ValueError. -/
def trim_concat_list_file (lines : List ConcatLine) (target_line_count : ℕ)
    (sample : List ConcatLine → ℕ → List ConcatLine) : Except Unit (List ConcatLine) :=
  if target_line_count < lines.length then
    if ((target_line_count : ℤ) - (lines.take 2).length
        - (lines.drop (lines.length - 2)).length) < 0 then
      .error ()
    else
      .ok (List.insertionSort keyLe
        (lines.take 2
          ++ sample ((lines.drop 2).take (lines.length - 4))
              ((target_line_count : ℤ) - (lines.take 2).length
                - (lines.drop (lines.length - 2)).length).toNat
          ++ lines.drop (lines.length - 2)))
  else
    .ok (List.insertionSort keyLe lines)

/-- Five distinct playlist lines with cut-point numbers 1..5. -/
def c7lines : List ConcatLine :=
  [⟨some 1, 1⟩, ⟨some 2, 2⟩, ⟨some 3, 3⟩, ⟨some 4, 4⟩, ⟨some 5, 5⟩]

/-- C7 counterexample. A full playlist of 5 lines with target count 3 (a
gif-subset size that passes configuration validation for 5 segments) makes
`trim_concat_list_file` raise ValueError - `target - 4` middle lines cannot be
sampled - instead of returning the claimed trimmed playlist. -/
theorem C7_counterexample :
    trim_concat_list_file c7lines 3 (fun m k => m.take k) = .error () := rfl

/-- C7 amended. When the target count is at least the line count the result
is the full playlist re-sorted by cut-point index (hence the playlist itself
whenever it is already sorted, as produced playlists are); when
`4 ≤ target < lines` the result keeps the first two and last two lines
verbatim, fills the rest with the `target - 4` lines `random.sample` drew from
the middle, and is sorted by ascending cut-point index regardless of the
sampling order; a target below 4 with more lines than the target raises
ValueError. -/
theorem C7_amended (lines : List ConcatLine) (target : ℕ)
    (sample : List ConcatLine → ℕ → List ConcatLine)
    (hsample : ∀ m k, k ≤ m.length → (sample m k).length = k ∧ (sample m k).Subperm m) :
    (lines.length ≤ target →
      trim_concat_list_file lines target sample = .ok (List.insertionSort keyLe lines))
    ∧ (lines.length ≤ target → List.Sorted keyLe lines →
      trim_concat_list_file lines target sample = .ok lines)
    ∧ (4 ≤ target → target < lines.length →
      ∃ out, trim_concat_list_file lines target sample = .ok out
        ∧ out.length = target
        ∧ List.Sorted keyLe out
        ∧ (∀ l ∈ lines.take 2, l ∈ out)
        ∧ (∀ l ∈ lines.drop (lines.length - 2), l ∈ out)
        ∧ out.Perm (lines.take 2
            ++ sample ((lines.drop 2).take (lines.length - 4)) (target - 4)
            ++ lines.drop (lines.length - 2))) := by
  refine ⟨?_, ?_, ?_⟩
  · intro h
    unfold trim_concat_list_file
    rw [if_neg (not_lt.mpr h)]
  · intro h hs
    unfold trim_concat_list_file
    rw [if_neg (not_lt.mpr h), hs.insertionSort_eq]
  · intro h4 hlt
    have hft : (lines.take 2).length = 2 := by
      rw [List.length_take]
      omega
    have hlt2 : (lines.drop (lines.length - 2)).length = 2 := by
      rw [List.length_drop]
      omega
    have hmid : ((lines.drop 2).take (lines.length - 4)).length = lines.length - 4 := by
      rw [List.length_take, List.length_drop]
      omega
    have hkey : ((target : ℤ) - (lines.take 2).length
        - (lines.drop (lines.length - 2)).length).toNat = target - 4 := by
      rw [hft, hlt2]
      omega
    have hpos : ¬(((target : ℤ) - (lines.take 2).length
        - (lines.drop (lines.length - 2)).length) < 0) := by
      rw [hft, hlt2]
      omega
    have hk : target - 4 ≤ ((lines.drop 2).take (lines.length - 4)).length := by
      rw [hmid]
      omega
    rcases hsample _ _ hk with ⟨hslen, hsperm⟩
    unfold trim_concat_list_file
    rw [if_pos hlt, if_neg hpos, hkey]
    refine ⟨_, rfl, ?_, ?_, ?_, ?_, ?_⟩
    · rw [List.length_insertionSort, List.length_append, List.length_append,
        hft, hlt2, hslen]
      omega
    · exact List.sorted_insertionSort keyLe _
    · intro l hl
      rw [List.mem_insertionSort]
      exact List.mem_append_left _ (List.mem_append_left _ hl)
    · intro l hl
      rw [List.mem_insertionSort]
      exact List.mem_append_right _ hl
    · exact List.perm_insertionSort keyLe _

/-- Witness for C7_amended with a concrete sample function (take the first
`k` middle lines): target 5 on 7 lines keeps lines 1, 2, 6, 7, samples one
middle line and returns 5 sorted lines; target 9 at or above the line count
returns the playlist unchanged. -/
theorem C7_witness :
    (trim_concat_list_file
        (c7lines ++ [⟨some 6, 6⟩, ⟨some 7, 7⟩]) 9 (fun m k => m.take k)
      = .ok (c7lines ++ [⟨some 6, 6⟩, ⟨some 7, 7⟩]))
    ∧ ∃ out, trim_concat_list_file
        (c7lines ++ [⟨some 6, 6⟩, ⟨some 7, 7⟩]) 5 (fun m k => m.take k) = .ok out
        ∧ out.length = 5
        ∧ List.Sorted keyLe out :=
  have hsample : ∀ (m : List ConcatLine) (k : ℕ), k ≤ m.length →
      (m.take k).length = k ∧ (m.take k).Subperm m :=
    fun m k hk => ⟨by rw [List.length_take]; omega, (List.take_sublist k m).subperm⟩
  ⟨(C7_amended (c7lines ++ [⟨some 6, 6⟩, ⟨some 7, 7⟩]) 9 (fun m k => m.take k)
      hsample).2.1 (by with_unfolding_all decide) (by with_unfolding_all decide),
   match (C7_amended (c7lines ++ [⟨some 6, 6⟩, ⟨some 7, 7⟩]) 5 (fun m k => m.take k)
      hsample).2.2 (by norm_num) (by with_unfolding_all decide) with
   | ⟨out, h1, h2, h3, _, _, _⟩ => ⟨out, h1, h2, h3⟩⟩

end PreviewTool
